import Mathlib

/-!
Verification of the envfix repository (an Azure Container Apps .env
processor). The definitions below are a shallow embedding of the
TypeScript CLI (src/unnamed/part_001, second document: the v1.1.0 tool)
and of the preferences store (src/src/config.js / its TypeScript twin),
plus the legacy quote-stripping regex of src/src/index.js.

Strings are modelled as Lean `String` (lists of characters); JS objects
are modelled as insertion-ordered association lists with JS property
assignment semantics (update in place, else append). Prompt answers and
subprocess outcomes are passed in as explicit boolean parameters, and the
observable effects of a run (files written, exit code, prompts shown,
scripts attempted) are collected in a `RunResult` record.
-/

namespace Envfix

/-- The double-quote character (written via its code point to keep the
file free of quote characters inside character literals). -/
def dquote : Char := Char.ofNat 34

/-- The single-quote character. -/
def squote : Char := Char.ofNat 39

/-- Newline. -/
def newlineCh : Char := Char.ofNat 10

/-- Carriage return. -/
def crCh : Char := Char.ofNat 13

/-- `--secret-name-style` values: kebab-lower | lower | preserve. -/
inductive SecretNameStyle
  | kebabLower
  | lower
  | preserve
deriving DecidableEq, Repr

/-- `--env-mode` values: secretref | plain. -/
inductive EnvMode
  | secretref
  | plain
deriving DecidableEq, Repr

/-- The CLI options relevant to processing (type CliOptions in the source;
file, name and resource group are passed separately, as in the source). -/
structure CliOptions where
  yes : Bool
  includePrefix : List String
  excludePrefix : List String
  secretNameStyle : SecretNameStyle
  secretPrefix : Option String
  secretsOnly : Bool
  envOnly : Bool
  envMode : EnvMode
deriving DecidableEq, Repr

/-- The commander defaults: includePrefix [], excludePrefix [TF_VAR_],
secret-name-style kebab-lower, env-mode secretref, no flags set. -/
def defaultOptions : CliOptions :=
  { yes := false
    includePrefix := []
    excludePrefix := ["TF_VAR_"]
    secretNameStyle := SecretNameStyle.kebabLower
    secretPrefix := none
    secretsOnly := false
    envOnly := false
    envMode := EnvMode.secretref }

/-- ASCII lower-casing of one character (String.prototype.toLowerCase on
the ASCII keys the tool handles). -/
def asciiToLower (c : Char) : Char :=
  if 65 ≤ c.toNat ∧ c.toNat ≤ 90 then Char.ofNat (c.toNat + 32) else c

/-- key.toLowerCase() -/
def lowerString (s : String) : String := String.mk (s.toList.map asciiToLower)

/-- key.replace(/_/g, "-") -/
def underToHyphen (s : String) : String :=
  String.mk (s.toList.map (fun c => if c = '_' then '-' else c))

/-- normalizeSecretName (part_001 lines 169-185): apply the naming style,
then prepend the optional secret prefix. -/
def normalizeSecretName (key : String) (style : SecretNameStyle)
    (pre : Option String) : String :=
  let name :=
    match style with
    | SecretNameStyle.kebabLower => underToHyphen (lowerString key)
    | SecretNameStyle.lower => lowerString key
    | SecretNameStyle.preserve => key
  match pre with
  | some p => p ++ name
  | none => name

/-- The target name an options record assigns to an original key. -/
def normName (o : CliOptions) (key : String) : String :=
  normalizeSecretName key o.secretNameStyle o.secretPrefix

/-- List-of-characters prefix test (String.prototype.startsWith). -/
def listIsPrefix : List Char → List Char → Bool
  | [], _ => true
  | _ :: _, [] => false
  | a :: as, b :: bs => a = b && listIsPrefix as bs

/-- key.startsWith(p) -/
def strStartsWith (s p : String) : Bool := listIsPrefix p.toList s.toList

/-- Why a parsed entry was skipped. -/
inductive SkipReason
  | empty
  | excludedPrefix
  | notIncludedPrefix
deriving DecidableEq, Repr

/-- shouldIncludeKey (part_001 lines 304-316): exclude prefixes first
(exclusion wins), then the include list (non-empty means the key must
match one). `none` means the key is included. -/
def shouldIncludeKey (key : String) (includeList excludeList : List String) :
    Option SkipReason :=
  if excludeList.any (fun p => strStartsWith key p) then
    some SkipReason.excludedPrefix
  else if includeList ≠ [] ∧ ¬ includeList.any (fun p => strStartsWith key p) then
    some SkipReason.notIncludedPrefix
  else none

/-- JS object property assignment on an insertion-ordered entry list:
overwrite the value in place when the key exists, else append. -/
def objSet {α : Type} : List (String × α) → String → α → List (String × α)
  | [], k, v => [(k, v)]
  | p :: rest, k, v =>
      if p.1 = k then (p.1, v) :: rest else p :: objSet rest k v

/-- JS object property read: the value at the first (only) matching key. -/
def lookupA {α : Type} : List (String × α) → String → Option α
  | [], _ => none
  | p :: rest, k => if p.1 = k then some p.2 else lookupA rest k

/-- nameToKeys bookkeeping (part_001 lines 383-385): push the key onto the
name's group, creating the group when absent. -/
def mapPush (m : List (String × List String)) (n k : String) :
    List (String × List String) :=
  objSet m n ((lookupA m n).getD [] ++ [k])

/-- List.join with a separator (Array.prototype.join). -/
def joinWith (sep : String) : List String → String
  | [] => ""
  | [x] => x
  | x :: y :: rest => x ++ sep ++ joinWith sep (y :: rest)

/-- findNameCollisions (part_001 lines 187-195): one report line per target
name owned by more than one original key. -/
def findNameCollisions (m : List (String × List String)) : List String :=
  m.filterMap (fun p =>
    if p.2.length > 1 then some (p.1 ++ ": " ++ joinWith ", " p.2) else none)

/-- bashSingleQuote (part_001 lines 165-167): wrap in single quotes,
escaping each embedded single quote as quote-doublequote-quote-
doublequote-quote. -/
def bashSingleQuote (v : String) : String :=
  String.mk ((squote :: (v.toList.map (fun c =>
    if c = squote then [squote, dquote, squote, dquote, squote] else [c])).flatten)
    ++ [squote])

/-- The `    key='value'`-argument block shared by both generated scripts. -/
def kvArgsText (entries : List (String × String)) : String :=
  joinWith " \\\n" (entries.map (fun p => "    " ++ p.1 ++ "=" ++ bashSingleQuote p.2))

/-- secrets-command.sh content (part_001 lines 452-454). -/
def secretsCommandText (appName resourceGroup : String)
    (entries : List (String × String)) : String :=
  "az containerapp secret set \\\n  --name " ++ appName ++
    " \\\n  --resource-group " ++ resourceGroup ++ " \\\n  --secrets \\\n" ++
    kvArgsText entries ++ "\n"

/-- envvars-command.sh content (part_001 lines 460-462). -/
def envVarsCommandText (appName resourceGroup : String)
    (entries : List (String × String)) : String :=
  "az containerapp update \\\n  --name " ++ appName ++
    " \\\n  --resource-group " ++ resourceGroup ++ " \\\n  --set-env-vars \\\n" ++
    kvArgsText entries ++ "\n"

/-- The mutable state of the entry loop in processEnvFile
(part_001 lines 345-356). -/
structure LoopState where
  secrets : List (String × String)
  envVars : List (String × String)
  processedKeys : List String
  skipped : List (String × SkipReason)
  nameToKeys : List (String × List String)
  hasMultiline : Bool
deriving DecidableEq, Repr

/-- The empty loop state. -/
def initState : LoopState :=
  { secrets := []
    envVars := []
    processedKeys := []
    skipped := []
    nameToKeys := []
    hasMultiline := false }

/-- One iteration of the entry loop (part_001 lines 358-402): skip empty
values, apply prefix filters to the original key, otherwise record the
normalized name and extend the secrets / env-vars objects. The skipped
keys and the per-reason counters of the source are modelled together as
the key-with-reason list `skipped`. -/
def step (o : CliOptions) (st : LoopState) (kv : String × String) : LoopState :=
  if kv.2.length = 0 then
    { st with skipped := st.skipped ++ [(kv.1, SkipReason.empty)] }
  else
    match shouldIncludeKey kv.1 o.includePrefix o.excludePrefix with
    | some r => { st with skipped := st.skipped ++ [(kv.1, r)] }
    | none =>
        let secretName := normName o kv.1
        { st with
          nameToKeys := mapPush st.nameToKeys secretName kv.1
          secrets := if o.envOnly then st.secrets
            else objSet st.secrets secretName kv.2
          envVars := if o.secretsOnly then st.envVars
            else objSet st.envVars kv.1
              (if o.envMode = EnvMode.secretref then "secretref:" ++ secretName
               else kv.2)
          processedKeys := st.processedKeys ++ [kv.1]
          hasMultiline := st.hasMultiline ||
            kv.2.toList.any (fun c => c = newlineCh ∨ c = crCh) }

/-- The entry loop over all parsed entries. -/
def loopOut (o : CliOptions) (entries : List (String × String)) : LoopState :=
  entries.foldl (step o) initState

/-- The name-to-keys map the run builds. -/
def nameMapOf (o : CliOptions) (entries : List (String × String)) :
    List (String × List String) :=
  (loopOut o entries).nameToKeys

/-- An entry survives when its value is non-empty and the prefix filters
include its original key. -/
def survives (o : CliOptions) (kv : String × String) : Bool :=
  decide (kv.2.length ≠ 0 ∧ shouldIncludeKey kv.1 o.includePrefix o.excludePrefix = none)

/-- The surviving entries, in input order. -/
def survivorsOf (o : CliOptions) (entries : List (String × String)) :
    List (String × String) :=
  entries.filter (survives o)

/-- The original keys of the surviving entries. -/
def survivorKeysOf (o : CliOptions) (entries : List (String × String)) :
    List String :=
  (survivorsOf o entries).map Prod.fst

/-- The coercion at part_001 lines 332-339: --env-only with env-mode
secretref is switched to plain (with a warning). -/
def effectiveOpts (o : CliOptions) : CliOptions :=
  if o.envMode = EnvMode.secretref ∧ o.envOnly = true then
    { o with envMode := EnvMode.plain }
  else o

/-- The observable outcome of one processEnvFile run: the final exit code
(0 when the function returns normally), the collision report, the four
artifact outputs (none when that file was not written), whether the
preferences store was updated, the processed / skipped key lists, which
prompts were shown, the coercion warning, the nothing-processed message,
and which generated scripts were invoked. -/
structure RunResult where
  exitCode : Nat
  collisionReport : List String
  secretsScriptOut : Option String
  secretsJsonOut : Option (List (String × String))
  envVarsScriptOut : Option String
  envVarsJsonOut : Option (List (String × String))
  prefsUpdated : Bool
  processedKeys : List String
  skipped : List (String × SkipReason)
  plainConfirmAsked : Bool
  coercionWarned : Bool
  noKeysMessage : Bool
  execPromptShown : Bool
  attemptedScripts : List String
deriving DecidableEq, Repr

/-- The run outcome before any branch is taken: nothing written, the loop
output recorded, the coercion warning already decided (the warning is
printed before the loop runs). -/
def baseOf (o0 : CliOptions) (st : LoopState) : RunResult :=
  { exitCode := 0
    collisionReport := []
    secretsScriptOut := none
    secretsJsonOut := none
    envVarsScriptOut := none
    envVarsJsonOut := none
    prefsUpdated := false
    processedKeys := st.processedKeys
    skipped := st.skipped
    plainConfirmAsked := false
    coercionWarned := decide (o0.envMode = EnvMode.secretref ∧ o0.envOnly = true)
    noKeysMessage := false
    execPromptShown := false
    attemptedScripts := [] }

/-- The file-writing stage (part_001 lines 451-467): the secrets pair
unless --env-only, the env-vars pair unless --secrets-only, then the
preferences update. -/
def writtenOf (appName resourceGroup : String) (o : CliOptions)
    (st : LoopState) (base : RunResult) : RunResult :=
  { base with
    secretsScriptOut := if o.envOnly then none
      else some (secretsCommandText appName resourceGroup st.secrets)
    secretsJsonOut := if o.envOnly then none else some st.secrets
    envVarsScriptOut := if o.secretsOnly then none
      else some (envVarsCommandText appName resourceGroup st.envVars)
    envVarsJsonOut := if o.secretsOnly then none else some st.envVars
    prefsUpdated := true }

/-- The execution stage (part_001 lines 520-537): run the secrets script
unless --env-only and exit 1 on its failure, then run the env-vars script
unless --secrets-only and exit 1 on its failure. -/
def execPhase (o : CliOptions) (w : RunResult)
    (secretsScriptOk envVarsScriptOk : Bool) : RunResult :=
  if o.envOnly = false then
    if secretsScriptOk = false then
      { w with
        exitCode := 1
        attemptedScripts := ["secrets-command.sh"] }
    else if o.secretsOnly = false then
      if envVarsScriptOk = false then
        { w with
          exitCode := 1
          attemptedScripts := ["secrets-command.sh", "envvars-command.sh"] }
      else
        { w with attemptedScripts := ["secrets-command.sh", "envvars-command.sh"] }
    else { w with attemptedScripts := ["secrets-command.sh"] }
  else
    if o.secretsOnly = false then
      if envVarsScriptOk = false then
        { w with
          exitCode := 1
          attemptedScripts := ["envvars-command.sh"] }
      else { w with attemptedScripts := ["envvars-command.sh"] }
    else w

/-- After the files are written: the nothing-processed early return
(part_001 lines 504-507), otherwise the execute prompt (skipped with -y)
and the optional execution stage. -/
def afterWrites (o : CliOptions) (w : RunResult)
    (executeAnswer secretsScriptOk envVarsScriptOk : Bool) : RunResult :=
  if w.processedKeys.length = 0 then
    { w with noKeysMessage := true }
  else if o.yes = true ∨ executeAnswer = true then
    execPhase o { w with execPromptShown := !o.yes } secretsScriptOk envVarsScriptOk
  else { w with execPromptShown := !o.yes }

/-- The confirmation-stage record: the base outcome with the
plaintext-confirmation flag decided. -/
def base2Of (o0 o : CliOptions) (st : LoopState) : RunResult :=
  { baseOf o0 st with
    plainConfirmAsked :=
      decide (o.envOnly = false ∧ o.envMode = EnvMode.plain ∧ o.yes = false) }

/-- processEnvFile (part_001 lines 318-552) from the point where the file
content has been parsed, together with main's option validation that is
repeated inside it. Prompt answers (`plainAnswer` for the plaintext
confirmation, `executeAnswer` for the run-now confirmation) and the two
subprocess outcomes are explicit inputs. The control flow mirrors the
source: coercion warning, entry loop, collision abort, the
secrets-only/env-only exclusion, the plaintext confirmation, file writes,
the preferences update, the nothing-processed early return, and the
optional sequential execution that exits 1 at the first failing script. -/
def processEntries (appName resourceGroup : String) (o0 : CliOptions)
    (entries : List (String × String))
    (plainAnswer executeAnswer secretsScriptOk envVarsScriptOk : Bool) :
    RunResult :=
  if findNameCollisions (loopOut (effectiveOpts o0) entries).nameToKeys ≠ [] then
    { baseOf o0 (loopOut (effectiveOpts o0) entries) with
      exitCode := 1
      collisionReport :=
        findNameCollisions (loopOut (effectiveOpts o0) entries).nameToKeys }
  else if (effectiveOpts o0).secretsOnly = true ∧ (effectiveOpts o0).envOnly = true then
    { baseOf o0 (loopOut (effectiveOpts o0) entries) with exitCode := 1 }
  else if ((effectiveOpts o0).envOnly = false ∧
        (effectiveOpts o0).envMode = EnvMode.plain ∧
        (effectiveOpts o0).yes = false) ∧ plainAnswer = false then
    base2Of o0 (effectiveOpts o0) (loopOut (effectiveOpts o0) entries)
  else
    afterWrites (effectiveOpts o0)
      (writtenOf appName resourceGroup (effectiveOpts o0)
        (loopOut (effectiveOpts o0) entries)
        (base2Of o0 (effectiveOpts o0) (loopOut (effectiveOpts o0) entries)))
      executeAnswer secretsScriptOk envVarsScriptOk

/-- A double or single quote. -/
def isQuoteChar (c : Char) : Bool := c = dquote || c = squote

/-- Characters that String.prototype.trim removes at either end of a line
(the relevant ASCII whitespace). -/
def isTrimCh (c : Char) : Bool := c = ' ' || c = Char.ofNat 9 || c = crCh

/-- Trim a character list at both ends. -/
def trimCh (l : List Char) : List Char :=
  ((l.dropWhile isTrimCh).reverse.dropWhile isTrimCh).reverse

/-- Split a character list at a separator character. -/
def splitCh (sep : Char) : List Char → List (List Char)
  | [] => [[]]
  | c :: cs =>
      if c = sep then [] :: splitCh sep cs
      else
        match splitCh sep cs with
        | [] => [[c]]
        | h :: t => (c :: h) :: t

/-- Split a line at its first equals sign: the part before and after. -/
def splitFirstEq : List Char → Option (List Char × List Char)
  | [] => none
  | c :: cs =>
      if c = '=' then some ([], cs)
      else
        match splitFirstEq cs with
        | none => none
        | some p => some (c :: p.1, p.2)

/-- Strip one layer of matching wrapping quotes: only when the first and
last characters are the same quote character (both double or both
single). -/
def stripMatchingQuotes (l : List Char) : List Char :=
  match l.head?, l.getLast? with
  | some a, some b =>
      if 2 ≤ l.length ∧ isQuoteChar a = true ∧ b = a then (l.drop 1).dropLast
      else l
  | _, _ => l

/-- Modelled from the spec: the dotenv.parse library routine the processor
calls at part_001 line 344 is an external dependency whose source is not
under src/. Following §4.1 of the spec: split the content into lines,
discard blank lines and lines whose first non-space character is a hash,
split each remaining line at the first equals sign (a line without one is
silently skipped), trim key and value, strip one layer of matching
leading/trailing quote characters from the value if both ends match, and
let the last occurrence of a key win. An empty value is kept (the entry
loop, not the parser, skips it). -/
def dotenvParse (content : String) : List (String × String) :=
  (splitCh newlineCh content.toList).foldl
    (fun acc line =>
      let l := trimCh line
      if l = [] ∨ l.head? = some '#' then acc
      else
        match splitFirstEq l with
        | none => acc
        | some p =>
            objSet acc (String.mk (trimCh p.1))
              (String.mk (stripMatchingQuotes (trimCh p.2))))
    []

/-- The persisted preferences (SavedConfig in src/src/config.js): the two
bounded most-recent-first lists. -/
structure SavedConfig where
  lastUsedApp : List String
  lastUsedResourceGroup : List String
deriving DecidableEq, Repr

/-- First-occurrence deduplication, as the spread of a JS Set preserves
first-occurrence order ([...new Set(list)]). -/
def dedupAux (seen : List String) : List String → List String
  | [] => []
  | x :: xs =>
      if x ∈ seen then dedupAux seen xs else x :: dedupAux (x :: seen) xs

/-- [...new Set(list)] -/
def dedupFirst (l : List String) : List String := dedupAux [] l

/-- ConfigManager.saveConfig (config.js lines 120-142): keep only the
first five unique values of each list before writing the file. -/
def saveConfig (c : SavedConfig) : SavedConfig :=
  { lastUsedApp := (dedupFirst c.lastUsedApp).take 5
    lastUsedResourceGroup := (dedupFirst c.lastUsedResourceGroup).take 5 }

/-- ConfigManager.updateLastUsed (config.js lines 144-149): prepend the
new values onto the loaded state and save. -/
def updateLastUsed (appName resourceGroup : String) (prior : SavedConfig) :
    SavedConfig :=
  saveConfig
    { lastUsedApp := appName :: prior.lastUsedApp
      lastUsedResourceGroup := resourceGroup :: prior.lastUsedResourceGroup }

/-- The Unicode line separator U+2028, which the JS dot does not match. -/
def lineSepCh : Char := Char.ofNat 8232

/-- The Unicode paragraph separator U+2029, which the JS dot does not
match either. -/
def paraSepCh : Char := Char.ofNat 8233

/-- The four characters a JavaScript regular-expression dot refuses to
match: line feed, carriage return, and the Unicode line and paragraph
separators. -/
def isLineTerminator (c : Char) : Bool :=
  c = newlineCh || c = crCh || c = lineSepCh || c = paraSepCh

/-- The quote-stripping regex of the legacy processor
(src/src/index.js lines 329-336): value.replace of the anchored pattern
quote, any middle, quote with the middle. The JS dot matches no line
terminator (LF, CR, U+2028, U+2029), and the two quote characters may
differ.

cleanValue: strip the outer characters exactly when the value has at
least two characters, starts and ends with a quote character (double or
single, independently), and the middle contains no line terminator. -/
def cleanValue (value : String) : String :=
  let cs := value.toList
  let mid := (cs.drop 1).dropLast
  if 2 ≤ cs.length ∧ isQuoteChar ((cs.head?).getD ' ') = true ∧
      isQuoteChar ((cs.getLast?).getD ' ') = true ∧
      mid.all (fun c => !(isLineTerminator c)) = true then
    String.mk mid
  else value

/-- The skip record an entry contributes (none when it survives). -/
def skipOf (o : CliOptions) (kv : String × String) : Option (String × SkipReason) :=
  if kv.2.length = 0 then some (kv.1, SkipReason.empty)
  else
    match shouldIncludeKey kv.1 o.includePrefix o.excludePrefix with
    | some r => some (kv.1, r)
    | none => none

/-- The value the env-vars object records for a surviving entry. -/
def envValOf (o : CliOptions) (kv : String × String) : String :=
  if o.envMode = EnvMode.secretref then "secretref:" ++ normName o kv.1 else kv.2

section Lemmas

variable {α : Type}

theorem lookupA_objSet (m : List (String × α)) (k : String) (v : α) (n : String) :
    lookupA (objSet m k v) n = if n = k then some v else lookupA m n := by
  induction m with
  | nil =>
      by_cases h : n = k
      · subst h
        simp [objSet, lookupA]
      · have h' : ¬ k = n := fun hh => h hh.symm
        simp [objSet, lookupA, h, h']
  | cons p rest ih =>
      by_cases hpk : p.1 = k
      · subst hpk
        by_cases hnk : n = p.1
        · subst hnk
          simp [objSet, lookupA]
        · have h2 : ¬ p.1 = n := fun hh => hnk hh.symm
          simp [objSet, lookupA, hnk, h2]
      · by_cases hpn : p.1 = n
        · have hnk : ¬ n = k := fun hh => hpk (by rw [hpn, hh])
          simp [objSet, lookupA, hpk, hpn, hnk]
        · simp [objSet, lookupA, hpk, hpn, ih]

theorem objSet_append (m : List (String × α)) (k : String) (v : α)
    (h : ∀ p ∈ m, p.1 ≠ k) : objSet m k v = m ++ [(k, v)] := by
  induction m with
  | nil => simp [objSet]
  | cons p rest ih =>
      have hp : p.1 ≠ k := h p (List.mem_cons_self p rest)
      simp only [objSet, if_neg hp, List.cons_append]
      exact congrArg (p :: ·) (ih fun q hq => h q (List.mem_cons_of_mem p hq))

theorem lookupA_mem {m : List (String × α)} {n : String} {v : α}
    (h : lookupA m n = some v) : (n, v) ∈ m := by
  induction m with
  | nil => simp [lookupA] at h
  | cons p rest ih =>
      by_cases hpn : p.1 = n
      · simp only [lookupA, if_pos hpn] at h
        have : p = (n, v) := by
          cases p with
          | mk a b => cases h; cases hpn; rfl
        exact this ▸ List.mem_cons_self p rest
      · simp only [lookupA, if_neg hpn] at h
        exact List.mem_cons_of_mem p (ih h)

theorem lookupA_mapPush (m : List (String × List String)) (a k n : String) :
    lookupA (mapPush m a k) n =
      if n = a then some ((lookupA m a).getD [] ++ [k]) else lookupA m n := by
  simp [mapPush, lookupA_objSet]

theorem survivorsOf_append (o : CliOptions) (es : List (String × String))
    (e : String × String) :
    survivorsOf o (es ++ [e]) =
      survivorsOf o es ++ if survives o e then [e] else [] := by
  by_cases h : survives o e
  · simp [survivorsOf, List.filter_append, h]
  · simp [survivorsOf, List.filter_append, h]

theorem survivorKeysOf_append (o : CliOptions) (es : List (String × String))
    (e : String × String) :
    survivorKeysOf o (es ++ [e]) =
      survivorKeysOf o es ++ if survives o e then [e.1] else [] := by
  by_cases h : survives o e <;>
    simp [survivorKeysOf, survivorsOf_append, h]

theorem survives_iff (o : CliOptions) (kv : String × String) :
    survives o kv = true ↔
      kv.2.length ≠ 0 ∧
        shouldIncludeKey kv.1 o.includePrefix o.excludePrefix = none := by
  simp [survives]

theorem step_not_surviving (o : CliOptions) (st : LoopState)
    (e : String × String) (h : survives o e = false) :
    step o st e =
      { st with skipped := st.skipped ++ [(e.1, ((skipOf o e).getD (e.1, SkipReason.empty)).2)] } := by
  have h' : ¬ (e.2.length ≠ 0 ∧
      shouldIncludeKey e.1 o.includePrefix o.excludePrefix = none) := by
    intro hc
    rw [← survives_iff o e] at hc
    rw [h] at hc
    exact Bool.false_ne_true hc
  by_cases h0 : e.2.length = 0
  · simp [step, skipOf, h0]
  · rcases hs : shouldIncludeKey e.1 o.includePrefix o.excludePrefix with _ | r
    · exact absurd ⟨h0, hs⟩ h'
    · simp [step, skipOf, h0, hs]

theorem step_surviving (o : CliOptions) (st : LoopState)
    (e : String × String) (h : survives o e = true) :
    step o st e =
      { st with
        nameToKeys := mapPush st.nameToKeys (normName o e.1) e.1
        secrets := if o.envOnly then st.secrets
          else objSet st.secrets (normName o e.1) e.2
        envVars := if o.secretsOnly then st.envVars
          else objSet st.envVars e.1 (envValOf o e)
        processedKeys := st.processedKeys ++ [e.1]
        hasMultiline := st.hasMultiline ||
          e.2.toList.any (fun c => c = newlineCh ∨ c = crCh) } := by
  rcases (survives_iff o e).mp h with ⟨h0, hs⟩
  simp [step, h0, hs, envValOf]

theorem loopOut_append (o : CliOptions) (es : List (String × String))
    (e : String × String) :
    loopOut o (es ++ [e]) = step o (loopOut o es) e := by
  simp [loopOut, List.foldl_append]

theorem processedKeys_loopOut (o : CliOptions) (entries : List (String × String)) :
    (loopOut o entries).processedKeys = survivorKeysOf o entries := by
  induction entries using List.reverseRecOn with
  | nil => rfl
  | append_singleton es e ih =>
      rw [loopOut_append, survivorKeysOf_append]
      by_cases h : survives o e
      · rw [step_surviving o _ e h]
        simp [ih, h]
      · rw [step_not_surviving o _ e (by simp [h])]
        simp [ih, h]

theorem skipped_loopOut (o : CliOptions) (entries : List (String × String)) :
    (loopOut o entries).skipped = entries.filterMap (skipOf o) := by
  induction entries using List.reverseRecOn with
  | nil => rfl
  | append_singleton es e ih =>
      rw [loopOut_append, List.filterMap_append]
      by_cases h : survives o e
      · have hnone : skipOf o e = none := by
          rcases (survives_iff o e).mp h with ⟨h0, hs⟩
          simp [skipOf, h0, hs]
        rw [step_surviving o _ e h]
        simp [ih, hnone]
      · have hsome : ∃ r, skipOf o e = some (e.1, r) := by
          by_cases h0 : e.2.length = 0
          · exact ⟨SkipReason.empty, by simp [skipOf, h0]⟩
          · rcases hs : shouldIncludeKey e.1 o.includePrefix o.excludePrefix with _ | r
            · exact absurd ((survives_iff o e).mpr ⟨h0, hs⟩) (by simp [h])
            · exact ⟨r, by simp [skipOf, h0, hs]⟩
        rcases hsome with ⟨r, hr⟩
        rw [step_not_surviving o _ e (by simp [h])]
        simp [ih, hr]

theorem lookupA_nameMap (o : CliOptions) (entries : List (String × String))
    (n : String) :
    lookupA (nameMapOf o entries) n =
      if (survivorKeysOf o entries).filter (fun k => decide (normName o k = n)) = []
      then none
      else some ((survivorKeysOf o entries).filter (fun k => decide (normName o k = n))) := by
  induction entries using List.reverseRecOn with
  | nil => rfl
  | append_singleton es e ih =>
      simp only [nameMapOf] at ih ⊢
      rw [loopOut_append, survivorKeysOf_append]
      by_cases h : survives o e
      · rw [step_surviving o _ e h]
        simp only [if_pos h, List.filter_append]
        show lookupA (mapPush (loopOut o es).nameToKeys (normName o e.1) e.1) n = _
        rw [lookupA_mapPush]
        by_cases hn : n = normName o e.1
        · rw [if_pos hn, ← hn]
          have hf : List.filter (fun k => decide (normName o k = n)) [e.1] = [e.1] := by
            simp [hn]
          rw [hf]
          by_cases hg : (survivorKeysOf o es).filter
              (fun k => decide (normName o k = n)) = []
          · rw [ih, if_pos hg, hg]
            simp
          · rw [ih, if_neg hg]
            simp [hg]
        · rw [if_neg hn]
          have hf : List.filter (fun k => decide (normName o k = n)) [e.1] = [] := by
            simp
            exact fun hh => hn hh.symm
          rw [hf, List.append_nil]
          exact ih
      · rw [step_not_surviving o _ e (by simp [h])]
        simp only [if_neg (by simp [h] : ¬ survives o e = true)]
        simp only [List.append_nil]
        exact ih

theorem nameMap_nil (o : CliOptions) (entries : List (String × String))
    (h : survivorsOf o entries = []) : nameMapOf o entries = [] := by
  induction entries using List.reverseRecOn with
  | nil => rfl
  | append_singleton es e ih =>
      rw [survivorsOf_append] at h
      by_cases hs : survives o e
      · rw [if_pos hs] at h
        exact absurd h (by simp)
      · rw [if_neg hs, List.append_nil] at h
        simp only [nameMapOf] at ih ⊢
        rw [loopOut_append, step_not_surviving o _ e (by simp [hs])]
        exact ih h

theorem secrets_loopOut (o : CliOptions) (henv : o.envOnly = false)
    (entries : List (String × String))
    (hnd : (survivorKeysOf o entries).Nodup)
    (hinj : ∀ k1 ∈ survivorKeysOf o entries, ∀ k2 ∈ survivorKeysOf o entries,
      normName o k1 = normName o k2 → k1 = k2) :
    (loopOut o entries).secrets =
      (survivorsOf o entries).map (fun kv => (normName o kv.1, kv.2)) := by
  induction entries using List.reverseRecOn with
  | nil => rfl
  | append_singleton es e ih =>
      rw [loopOut_append, survivorsOf_append]
      by_cases h : survives o e
      · rw [survivorKeysOf_append, if_pos h] at hnd hinj
        have hmem : ∀ k ∈ survivorKeysOf o es, k ∈ survivorKeysOf o es ++ [e.1] :=
          fun k hk => List.mem_append_left _ hk
        have hnd' : (survivorKeysOf o es).Nodup :=
          (List.nodup_append.mp hnd).1
        have hdisj : e.1 ∉ survivorKeysOf o es := by
          intro hc
          exact (List.nodup_append.mp hnd).2.2 hc (List.mem_singleton_self e.1)
        have hinj' : ∀ k1 ∈ survivorKeysOf o es, ∀ k2 ∈ survivorKeysOf o es,
            normName o k1 = normName o k2 → k1 = k2 :=
          fun k1 h1 k2 h2 => hinj k1 (hmem k1 h1) k2 (hmem k2 h2)
        rw [step_surviving o _ e h, if_pos h]
        have hfresh : ∀ p ∈ (loopOut o es).secrets, p.1 ≠ normName o e.1 := by
          rw [ih hnd' hinj']
          intro p hp hpe
          rcases List.mem_map.mp hp with ⟨kv, hkv, hpkv⟩
          have hk1 : kv.1 ∈ survivorKeysOf o es :=
            List.mem_map.mpr ⟨kv, hkv, rfl⟩
          have he1 : e.1 ∈ survivorKeysOf o es ++ [e.1] :=
            List.mem_append_right _ (List.mem_singleton_self e.1)
          have heq : normName o kv.1 = normName o e.1 := by
            rw [← hpkv] at hpe
            exact hpe
          have : kv.1 = e.1 := hinj kv.1 (hmem kv.1 hk1) e.1 he1 heq
          exact hdisj (this ▸ hk1)
        simp only [henv, Bool.false_eq_true, if_false]
        rw [objSet_append _ _ _ hfresh, ih hnd' hinj', List.map_append]
        rfl
      · rw [survivorKeysOf_append, if_neg h, List.append_nil] at hnd hinj
        rw [step_not_surviving o _ e (by simp [h]), if_neg h, List.append_nil]
        exact ih hnd hinj

theorem envVars_loopOut (o : CliOptions) (hsec : o.secretsOnly = false)
    (entries : List (String × String))
    (hnd : (survivorKeysOf o entries).Nodup) :
    (loopOut o entries).envVars =
      (survivorsOf o entries).map (fun kv => (kv.1, envValOf o kv)) := by
  induction entries using List.reverseRecOn with
  | nil => rfl
  | append_singleton es e ih =>
      rw [loopOut_append, survivorsOf_append]
      by_cases h : survives o e
      · rw [survivorKeysOf_append, if_pos h] at hnd
        have hnd' : (survivorKeysOf o es).Nodup := (List.nodup_append.mp hnd).1
        have hdisj : e.1 ∉ survivorKeysOf o es := by
          intro hc
          exact (List.nodup_append.mp hnd).2.2 hc (List.mem_singleton_self e.1)
        rw [step_surviving o _ e h, if_pos h]
        have hfresh : ∀ p ∈ (loopOut o es).envVars, p.1 ≠ e.1 := by
          rw [ih hnd']
          intro p hp hpe
          rcases List.mem_map.mp hp with ⟨kv, hkv, hpkv⟩
          have hk1 : kv.1 ∈ survivorKeysOf o es := List.mem_map.mpr ⟨kv, hkv, rfl⟩
          rw [← hpkv] at hpe
          exact hdisj (hpe ▸ hk1)
        simp only [hsec, Bool.false_eq_true, if_false]
        rw [objSet_append _ _ _ hfresh, ih hnd', List.map_append]
        rfl
      · rw [survivorKeysOf_append, if_neg h, List.append_nil] at hnd
        rw [step_not_surviving o _ e (by simp [h]), if_neg h, List.append_nil]
        exact ih hnd

theorem mem_findNameCollisions {m : List (String × List String)}
    {n : String} {ks : List String} (h : (n, ks) ∈ m) (hlen : ks.length > 1) :
    (n ++ ": " ++ joinWith ", " ks) ∈ findNameCollisions m := by
  refine List.mem_filterMap.mpr ⟨(n, ks), h, ?_⟩
  simp [hlen]

theorem findNameCollisions_nil_bound {m : List (String × List String)}
    (h : findNameCollisions m = []) :
    ∀ n ks, (n, ks) ∈ m → ks.length ≤ 1 := by
  intro n ks hmem
  by_contra hlen
  have h2 : ks.length > 1 := Nat.lt_of_not_le fun hh => hlen hh
  have : (n ++ ": " ++ joinWith ", " ks) ∈ findNameCollisions m :=
    mem_findNameCollisions hmem h2
  rw [h] at this
  exact absurd this (List.not_mem_nil _)

theorem two_mem_le_length {l : List String} {a b : String}
    (ha : a ∈ l) (hb : b ∈ l) (hne : a ≠ b) : 2 ≤ l.length := by
  match l with
  | [] => exact absurd ha (List.not_mem_nil a)
  | [x] =>
      rw [List.mem_singleton] at ha hb
      exact absurd (ha.trans hb.symm) hne
  | x :: y :: rest => simp [Nat.succ_le_succ, Nat.le_add_left]

/-- A collision-free name map means the naming function is injective on the
surviving keys. -/
theorem collision_free_inj (o : CliOptions) (entries : List (String × String))
    (h : findNameCollisions (nameMapOf o entries) = []) :
    ∀ k1 ∈ survivorKeysOf o entries, ∀ k2 ∈ survivorKeysOf o entries,
      normName o k1 = normName o k2 → k1 = k2 := by
  intro k1 h1 k2 h2 heq
  by_contra hne
  set n := normName o k1 with hn
  set g := (survivorKeysOf o entries).filter (fun k => decide (normName o k = n))
    with hg
  have hk1 : k1 ∈ g := List.mem_filter.mpr ⟨h1, by simp [hn]⟩
  have hk2 : k2 ∈ g := List.mem_filter.mpr ⟨h2, by simp [← heq, hn]⟩
  have hglen : 2 ≤ g.length := two_mem_le_length hk1 hk2 hne
  have hgne : g ≠ [] := by
    intro hnil
    rw [hnil] at hglen
    exact absurd hglen (by simp)
  have hlook : lookupA (nameMapOf o entries) n = some g := by
    rw [lookupA_nameMap, ← hg, if_neg hgne]
  have hmem : (n, g) ∈ nameMapOf o entries := lookupA_mem hlook
  have := findNameCollisions_nil_bound h n g hmem
  exact absurd hglen (by omega)

/-- Two distinct surviving keys with the same target name force a
non-empty collision report, and the report names the colliding group. -/
theorem collision_report_of_clash (o : CliOptions)
    (entries : List (String × String)) {k1 k2 n : String}
    (h1 : k1 ∈ survivorKeysOf o entries) (h2 : k2 ∈ survivorKeysOf o entries)
    (hne : k1 ≠ k2) (hn1 : normName o k1 = n) (hn2 : normName o k2 = n) :
    ∃ ks, (n, ks) ∈ nameMapOf o entries ∧ ks.length > 1 ∧
      (n ++ ": " ++ joinWith ", " ks) ∈ findNameCollisions (nameMapOf o entries) := by
  set g := (survivorKeysOf o entries).filter (fun k => decide (normName o k = n))
    with hg
  have hk1 : k1 ∈ g := List.mem_filter.mpr ⟨h1, by simp [hn1]⟩
  have hk2 : k2 ∈ g := List.mem_filter.mpr ⟨h2, by simp [hn2]⟩
  have hglen : 2 ≤ g.length := two_mem_le_length hk1 hk2 hne
  have hgne : g ≠ [] := by
    intro hnil
    rw [hnil] at hglen
    exact absurd hglen (by simp)
  have hlook : lookupA (nameMapOf o entries) n = some g := by
    rw [lookupA_nameMap, ← hg, if_neg hgne]
  have hmem : (n, g) ∈ nameMapOf o entries := lookupA_mem hlook
  exact ⟨g, hmem, by omega, mem_findNameCollisions hmem (by omega)⟩

theorem effectiveOpts_eq_self {o : CliOptions} (h : o.envOnly = false) :
    effectiveOpts o = o := by
  unfold effectiveOpts
  rw [if_neg]
  intro hc
  rw [h] at hc
  exact Bool.false_ne_true hc.2

theorem effectiveOpts_coerce {o : CliOptions}
    (h1 : o.envMode = EnvMode.secretref) (h2 : o.envOnly = true) :
    effectiveOpts o = { o with envMode := EnvMode.plain } := by
  unfold effectiveOpts
  rw [if_pos ⟨h1, h2⟩]

theorem execPhase_shape (o : CliOptions) (w : RunResult) (sOk eOk : Bool) :
    ∃ n a, execPhase o w sOk eOk =
      { w with exitCode := n, attemptedScripts := a } := by
  unfold execPhase
  split_ifs
  · exact ⟨1, ["secrets-command.sh"], rfl⟩
  · exact ⟨1, ["secrets-command.sh", "envvars-command.sh"], rfl⟩
  · exact ⟨w.exitCode, ["secrets-command.sh", "envvars-command.sh"], rfl⟩
  · exact ⟨w.exitCode, ["secrets-command.sh"], rfl⟩
  · exact ⟨1, ["envvars-command.sh"], rfl⟩
  · exact ⟨w.exitCode, ["envvars-command.sh"], rfl⟩
  · exact ⟨w.exitCode, w.attemptedScripts, rfl⟩

theorem afterWrites_shape (o : CliOptions) (w : RunResult) (ea sOk eOk : Bool) :
    ∃ n a b c, afterWrites o w ea sOk eOk =
      { w with exitCode := n, attemptedScripts := a, noKeysMessage := b,
               execPromptShown := c } := by
  unfold afterWrites
  split_ifs
  · exact ⟨w.exitCode, w.attemptedScripts, true, w.execPromptShown, rfl⟩
  · obtain ⟨n, a, h⟩ := execPhase_shape o { w with execPromptShown := !o.yes } sOk eOk
    exact ⟨n, a, w.noKeysMessage, !o.yes, by rw [h]⟩
  · exact ⟨w.exitCode, w.attemptedScripts, w.noKeysMessage, !o.yes, rfl⟩

theorem afterWrites_nokeys (o : CliOptions) (w : RunResult) (ea sOk eOk : Bool)
    (h0 : w.processedKeys.length = 0) :
    afterWrites o w ea sOk eOk = { w with noKeysMessage := true } := by
  unfold afterWrites
  rw [if_pos h0]

theorem afterWrites_exec_secretsFail (o : CliOptions) (w : RunResult)
    (ea sOk eOk : Bool) (h0 : ¬ w.processedKeys.length = 0)
    (hex : o.yes = true ∨ ea = true) (henv : o.envOnly = false)
    (hs : sOk = false) :
    (afterWrites o w ea sOk eOk).exitCode = 1 ∧
      (afterWrites o w ea sOk eOk).attemptedScripts = ["secrets-command.sh"] := by
  unfold afterWrites execPhase
  rw [if_neg h0, if_pos hex, if_pos henv, if_pos hs]
  exact ⟨rfl, rfl⟩

theorem afterWrites_exec_envFail (o : CliOptions) (w : RunResult)
    (ea sOk eOk : Bool) (h0 : ¬ w.processedKeys.length = 0)
    (hex : o.yes = true ∨ ea = true) (henv : o.envOnly = false)
    (hs : sOk = true) (hsec : o.secretsOnly = false) (he : eOk = false) :
    (afterWrites o w ea sOk eOk).exitCode = 1 ∧
      (afterWrites o w ea sOk eOk).attemptedScripts =
        ["secrets-command.sh", "envvars-command.sh"] := by
  unfold afterWrites execPhase
  rw [if_neg h0, if_pos hex, if_pos henv,
    if_neg (by simp [hs] : ¬ sOk = false), if_pos hsec, if_pos he]
  exact ⟨rfl, rfl⟩

theorem processEntries_collision_case (app rg : String) (o0 : CliOptions)
    (entries : List (String × String)) (pa ea sOk eOk : Bool)
    (hcol : findNameCollisions (loopOut (effectiveOpts o0) entries).nameToKeys ≠ []) :
    processEntries app rg o0 entries pa ea sOk eOk =
      { baseOf o0 (loopOut (effectiveOpts o0) entries) with
        exitCode := 1
        collisionReport :=
          findNameCollisions (loopOut (effectiveOpts o0) entries).nameToKeys } := by
  unfold processEntries
  rw [if_pos hcol]

theorem processEntries_cancel_case (app rg : String) (o0 : CliOptions)
    (entries : List (String × String)) (pa ea sOk eOk : Bool)
    (hcol : findNameCollisions (loopOut (effectiveOpts o0) entries).nameToKeys = [])
    (hboth : ¬((effectiveOpts o0).secretsOnly = true ∧ (effectiveOpts o0).envOnly = true))
    (hstop : ((effectiveOpts o0).envOnly = false ∧
        (effectiveOpts o0).envMode = EnvMode.plain ∧
        (effectiveOpts o0).yes = false) ∧ pa = false) :
    processEntries app rg o0 entries pa ea sOk eOk =
      base2Of o0 (effectiveOpts o0) (loopOut (effectiveOpts o0) entries) := by
  unfold processEntries
  rw [if_neg (by simp [hcol]), if_neg hboth, if_pos hstop]

theorem processEntries_written_case (app rg : String) (o0 : CliOptions)
    (entries : List (String × String)) (pa ea sOk eOk : Bool)
    (hcol : findNameCollisions (loopOut (effectiveOpts o0) entries).nameToKeys = [])
    (hboth : ¬((effectiveOpts o0).secretsOnly = true ∧ (effectiveOpts o0).envOnly = true))
    (hpass : ¬(((effectiveOpts o0).envOnly = false ∧
        (effectiveOpts o0).envMode = EnvMode.plain ∧
        (effectiveOpts o0).yes = false) ∧ pa = false)) :
    processEntries app rg o0 entries pa ea sOk eOk =
      afterWrites (effectiveOpts o0)
        (writtenOf app rg (effectiveOpts o0) (loopOut (effectiveOpts o0) entries)
          (base2Of o0 (effectiveOpts o0) (loopOut (effectiveOpts o0) entries)))
        ea sOk eOk := by
  unfold processEntries
  rw [if_neg (by simp [hcol]), if_neg hboth, if_neg hpass]

theorem processEntries_both_case (app rg : String) (o0 : CliOptions)
    (entries : List (String × String)) (pa ea sOk eOk : Bool)
    (hcol : findNameCollisions (loopOut (effectiveOpts o0) entries).nameToKeys = [])
    (hboth : (effectiveOpts o0).secretsOnly = true ∧ (effectiveOpts o0).envOnly = true) :
    processEntries app rg o0 entries pa ea sOk eOk =
      { baseOf o0 (loopOut (effectiveOpts o0) entries) with exitCode := 1 } := by
  unfold processEntries
  rw [if_neg (by simp [hcol]), if_pos hboth]

theorem effectiveOpts_secretsOnly (o : CliOptions) :
    (effectiveOpts o).secretsOnly = o.secretsOnly := by
  unfold effectiveOpts
  split_ifs <;> rfl

theorem effectiveOpts_envOnly (o : CliOptions) :
    (effectiveOpts o).envOnly = o.envOnly := by
  unfold effectiveOpts
  split_ifs <;> rfl

theorem effectiveOpts_yes (o : CliOptions) : (effectiveOpts o).yes = o.yes := by
  unfold effectiveOpts
  split_ifs <;> rfl

theorem effectiveOpts_includePrefix (o : CliOptions) :
    (effectiveOpts o).includePrefix = o.includePrefix := by
  unfold effectiveOpts
  split_ifs <;> rfl

theorem effectiveOpts_excludePrefix (o : CliOptions) :
    (effectiveOpts o).excludePrefix = o.excludePrefix := by
  unfold effectiveOpts
  split_ifs <;> rfl

theorem processEntries_keys_skipped (app rg : String) (o0 : CliOptions)
    (entries : List (String × String)) (pa ea sOk eOk : Bool) :
    (processEntries app rg o0 entries pa ea sOk eOk).processedKeys =
      (loopOut (effectiveOpts o0) entries).processedKeys ∧
    (processEntries app rg o0 entries pa ea sOk eOk).skipped =
      (loopOut (effectiveOpts o0) entries).skipped := by
  by_cases hcol : findNameCollisions (loopOut (effectiveOpts o0) entries).nameToKeys ≠ []
  · rw [processEntries_collision_case app rg o0 entries pa ea sOk eOk hcol]
    exact ⟨rfl, rfl⟩
  · have hcol' : findNameCollisions (loopOut (effectiveOpts o0) entries).nameToKeys = [] := by
      by_contra hc
      exact hcol hc
    by_cases hboth : (effectiveOpts o0).secretsOnly = true ∧ (effectiveOpts o0).envOnly = true
    · rw [processEntries_both_case app rg o0 entries pa ea sOk eOk hcol' hboth]
      exact ⟨rfl, rfl⟩
    · by_cases hstop : ((effectiveOpts o0).envOnly = false ∧
          (effectiveOpts o0).envMode = EnvMode.plain ∧
          (effectiveOpts o0).yes = false) ∧ pa = false
      · rw [processEntries_cancel_case app rg o0 entries pa ea sOk eOk hcol' hboth hstop]
        exact ⟨rfl, rfl⟩
      · rw [processEntries_written_case app rg o0 entries pa ea sOk eOk hcol' hboth hstop]
        obtain ⟨n, a, b, c, h⟩ := afterWrites_shape (effectiveOpts o0)
          (writtenOf app rg (effectiveOpts o0) (loopOut (effectiveOpts o0) entries)
            (base2Of o0 (effectiveOpts o0) (loopOut (effectiveOpts o0) entries)))
          ea sOk eOk
        rw [h]
        exact ⟨rfl, rfl⟩

theorem dedupAux_nodup_not_seen (l : List String) :
    ∀ seen : List String,
      (dedupAux seen l).Nodup ∧ ∀ x ∈ dedupAux seen l, x ∉ seen := by
  induction l with
  | nil =>
      intro seen
      exact ⟨List.nodup_nil, by simp [dedupAux]⟩
  | cons x xs ih =>
      intro seen
      by_cases hx : x ∈ seen
      · simp only [dedupAux, if_pos hx]
        exact ih seen
      · simp only [dedupAux, if_neg hx]
        obtain ⟨hnd, hnot⟩ := ih (x :: seen)
        refine ⟨List.nodup_cons.mpr ⟨fun hc => hnot x hc (List.mem_cons_self x seen), hnd⟩, ?_⟩
        intro y hy
        rcases List.mem_cons.mp hy with h | h
        · exact h ▸ hx
        · exact fun hc => hnot y h (List.mem_cons_of_mem x hc)

theorem dedupAux_sublist (l : List String) :
    ∀ seen : List String, List.Sublist (dedupAux seen l) l := by
  induction l with
  | nil => intro seen; simp [dedupAux]
  | cons x xs ih =>
      intro seen
      by_cases hx : x ∈ seen
      · simp only [dedupAux, if_pos hx]
        exact (ih seen).trans (List.sublist_cons_self x xs)
      · simp only [dedupAux, if_neg hx]
        exact List.Sublist.cons₂ x (ih (x :: seen))

theorem dedupFirst_cons (a : String) (l : List String) :
    dedupFirst (a :: l) = a :: dedupAux [a] l := by
  simp [dedupFirst, dedupAux]

theorem dedupFirst_nodup (l : List String) : (dedupFirst l).Nodup :=
  (dedupAux_nodup_not_seen l []).1

theorem dedupFirst_sublist (l : List String) : List.Sublist (dedupFirst l) l :=
  dedupAux_sublist l []

end Lemmas

/-- C9: after every update of the preferences store with an app name and a
resource group, each persisted list holds the newly used value first, is
deduplicated preserving most-recent-first order (it is a duplicate-free
sublist of the new value followed by the prior list), and has length at
most five; this is the state saveConfig writes. -/
theorem C9_preferences_invariant (app rg : String) (prior : SavedConfig) :
    (updateLastUsed app rg prior).lastUsedApp.head? = some app ∧
    (updateLastUsed app rg prior).lastUsedApp.Nodup ∧
    (updateLastUsed app rg prior).lastUsedApp.length ≤ 5 ∧
    List.Sublist (updateLastUsed app rg prior).lastUsedApp
      (app :: prior.lastUsedApp) ∧
    (updateLastUsed app rg prior).lastUsedResourceGroup.head? = some rg ∧
    (updateLastUsed app rg prior).lastUsedResourceGroup.Nodup ∧
    (updateLastUsed app rg prior).lastUsedResourceGroup.length ≤ 5 ∧
    List.Sublist (updateLastUsed app rg prior).lastUsedResourceGroup
      (rg :: prior.lastUsedResourceGroup) := by
  have happ : (updateLastUsed app rg prior).lastUsedApp
      = (dedupFirst (app :: prior.lastUsedApp)).take 5 := rfl
  have hrg : (updateLastUsed app rg prior).lastUsedResourceGroup
      = (dedupFirst (rg :: prior.lastUsedResourceGroup)).take 5 := rfl
  refine ⟨?_, ?_, ?_, ?_, ?_, ?_, ?_, ?_⟩
  · rw [happ, dedupFirst_cons]
    rfl
  · rw [happ]
    exact List.Nodup.sublist (List.take_sublist 5 _) (dedupFirst_nodup _)
  · rw [happ]
    exact List.length_take_le 5 _
  · rw [happ]
    exact (List.take_sublist 5 _).trans (dedupFirst_sublist _)
  · rw [hrg, dedupFirst_cons]
    rfl
  · rw [hrg]
    exact List.Nodup.sublist (List.take_sublist 5 _) (dedupFirst_nodup _)
  · rw [hrg]
    exact List.length_take_le 5 _
  · rw [hrg]
    exact (List.take_sublist 5 _).trans (dedupFirst_sublist _)

/-- C6 counterexample: the value consisting of a double quote, the letters
v and a, and a single quote has mismatched wrapping quotes, so the claim
says it is stored unchanged; the cleaning regex nevertheless strips both
quote characters. -/
theorem C6_counterexample :
    cleanValue (String.mk [dquote, 'v', 'a', squote]) = "va" ∧
    String.mk [dquote, 'v', 'a', squote] ≠ "va" ∧
    dquote ≠ squote := by decide

/-- C6 amended: value cleaning strips exactly one layer of wrapping quote
characters exactly when the value has at least two characters, both its
first and last characters are quote characters (each independently double
or single - mismatched wrapping quotes are also stripped), and the middle
contains no line-terminator character (line feed, carriage return, the
Unicode line or paragraph separator); in every other case - in particular
when the first or last character is not a quote character, or a line
terminator lies between the quotes - the value is stored unchanged. In
particular quote-wrapped value stays value for both quote kinds,
va-quote-lu-quote-e is unchanged, and a quote-wrapped value with an
interior carriage return is unchanged. -/
theorem C6_clean_value_amended :
    (∀ v : String, 2 ≤ v.toList.length →
        isQuoteChar ((v.toList.head?).getD ' ') = true →
        isQuoteChar ((v.toList.getLast?).getD ' ') = true →
        ((v.toList.drop 1).dropLast.all (fun c => !(isLineTerminator c))) = true →
        cleanValue v = String.mk ((v.toList.drop 1).dropLast)) ∧
    (∀ v : String,
        ¬(2 ≤ v.toList.length ∧
          isQuoteChar ((v.toList.head?).getD ' ') = true ∧
          isQuoteChar ((v.toList.getLast?).getD ' ') = true ∧
          ((v.toList.drop 1).dropLast.all (fun c => !(isLineTerminator c))) = true) →
        cleanValue v = v) ∧
    cleanValue (String.mk ([dquote] ++ "value".toList ++ [dquote])) = "value" ∧
    cleanValue (String.mk ([squote] ++ "value".toList ++ [squote])) = "value" ∧
    cleanValue (String.mk ("va".toList ++ [dquote] ++ "lu".toList ++ [squote] ++ "e".toList)) =
      String.mk ("va".toList ++ [dquote] ++ "lu".toList ++ [squote] ++ "e".toList) ∧
    cleanValue (String.mk [dquote, 'a', crCh, 'b', dquote]) =
      String.mk [dquote, 'a', crCh, 'b', dquote] := by
  refine ⟨?_, ?_, by decide, by decide, by decide, by decide⟩
  · intro v hl h1 h2 h3
    unfold cleanValue
    rw [if_pos ⟨hl, h1, h2, h3⟩]
  · intro v h
    unfold cleanValue
    rw [if_neg h]

/-- C6 witness: the amended theorem applied at a double-quote-wrapped
value (stripped) and at an unquoted value (unchanged). -/
theorem C6_clean_value_amended_witness :
    cleanValue (String.mk [dquote, 'a', 'b', dquote]) =
      String.mk (((String.mk [dquote, 'a', 'b', dquote]).toList.drop 1).dropLast) ∧
    cleanValue "abc" = "abc" :=
  ⟨C6_clean_value_amended.1 (String.mk [dquote, 'a', 'b', dquote])
      (by decide) (by decide) (by decide) (by decide),
    C6_clean_value_amended.2.1 "abc" (by decide)⟩

/-- C3: at the failing input (--env-only, a surviving entry, no -y flag)
the coerced env mode is plain, yet the run writes the plaintext env-vars
artifacts with the plaintext confirmation never asked, exiting zero. -/
theorem C3_env_only_skips_plain_confirmation :
    (effectiveOpts { defaultOptions with envOnly := true }).envMode = EnvMode.plain ∧
    (processEntries "app" "rg" { defaultOptions with envOnly := true }
      [("A", "1")] false false true true).plainConfirmAsked = false ∧
    (processEntries "app" "rg" { defaultOptions with envOnly := true }
      [("A", "1")] false false true true).envVarsJsonOut = some [("A", "1")] ∧
    (processEntries "app" "rg" { defaultOptions with envOnly := true }
      [("A", "1")] false false true true).exitCode = 0 := by decide

/-- C2 counterexample: with -y set, both groups generated and the secrets
script failing, the env-vars script is generated but never attempted and
the run exits 1 - the companion script is not attempted independently. -/
theorem C2_counterexample :
    (processEntries "a" "g" { defaultOptions with yes := true }
      [("A", "1")] true true false true).attemptedScripts = ["secrets-command.sh"] ∧
    "envvars-command.sh" ∉
      (processEntries "a" "g" { defaultOptions with yes := true }
        [("A", "1")] true true false true).attemptedScripts ∧
    (processEntries "a" "g" { defaultOptions with yes := true }
      [("A", "1")] true true false true).envVarsScriptOut ≠ none ∧
    (processEntries "a" "g" { defaultOptions with yes := true }
      [("A", "1")] true true false true).exitCode = 1 := by decide

/-- C10 counterexample: a run with env mode plain (set by flag), no -y,
zero surviving entries and a declined plaintext confirmation exits zero
but writes no artifact file, does not update the preferences store and
prints no nothing-processed report. -/
theorem C10_counterexample :
    survivorsOf (effectiveOpts { defaultOptions with envMode := EnvMode.plain }) [] = [] ∧
    (processEntries "a" "g" { defaultOptions with envMode := EnvMode.plain }
      [] false false true true).secretsJsonOut = none ∧
    (processEntries "a" "g" { defaultOptions with envMode := EnvMode.plain }
      [] false false true true).envVarsJsonOut = none ∧
    (processEntries "a" "g" { defaultOptions with envMode := EnvMode.plain }
      [] false false true true).prefsUpdated = false ∧
    (processEntries "a" "g" { defaultOptions with envMode := EnvMode.plain }
      [] false false true true).noKeysMessage = false ∧
    (processEntries "a" "g" { defaultOptions with envMode := EnvMode.plain }
      [] false false true true).exitCode = 0 := by decide

/-- C8: with all-default flags, the four example lines produce processed
keys DB_HOST and API_KEY, TF_VAR_SKIP skipped as excluded-prefix and
EMPTY as empty, the secrets object maps db-host and api-key to the
cleaned values, and the env-vars object maps the original keys to
secretref references; the run completes with exit code zero. -/
theorem C8_default_example :
    (processEntries "app" "rg" defaultOptions
      (dotenvParse ("DB_HOST=localhost\nTF_VAR_SKIP=x\nEMPTY=\nAPI_KEY=\x22secret123\x22"))
      false false true true).processedKeys = ["DB_HOST", "API_KEY"] ∧
    (processEntries "app" "rg" defaultOptions
      (dotenvParse ("DB_HOST=localhost\nTF_VAR_SKIP=x\nEMPTY=\nAPI_KEY=\x22secret123\x22"))
      false false true true).skipped =
        [("TF_VAR_SKIP", SkipReason.excludedPrefix), ("EMPTY", SkipReason.empty)] ∧
    (processEntries "app" "rg" defaultOptions
      (dotenvParse ("DB_HOST=localhost\nTF_VAR_SKIP=x\nEMPTY=\nAPI_KEY=\x22secret123\x22"))
      false false true true).secretsJsonOut =
        some [("db-host", "localhost"), ("api-key", "secret123")] ∧
    (processEntries "app" "rg" defaultOptions
      (dotenvParse ("DB_HOST=localhost\nTF_VAR_SKIP=x\nEMPTY=\nAPI_KEY=\x22secret123\x22"))
      false false true true).envVarsJsonOut =
        some [("DB_HOST", "secretref:db-host"), ("API_KEY", "secretref:api-key")] ∧
    (processEntries "app" "rg" defaultOptions
      (dotenvParse ("DB_HOST=localhost\nTF_VAR_SKIP=x\nEMPTY=\nAPI_KEY=\x22secret123\x22"))
      false false true true).exitCode = 0 := by decide

/-- C1: whenever two distinct surviving original keys normalize to the
same target name, the run exits 1, writes none of the four artifact files,
does not update the preferences store, and its collision report is the
full findNameCollisions output, which contains a line for every colliding
group (the target name with its originating keys). -/
theorem C1_collision_fatal_abort (app rg : String) (o0 : CliOptions)
    (entries : List (String × String)) (pa ea sOk eOk : Bool) (n k1 k2 : String)
    (h1 : k1 ∈ survivorKeysOf (effectiveOpts o0) entries)
    (h2 : k2 ∈ survivorKeysOf (effectiveOpts o0) entries)
    (hne : k1 ≠ k2)
    (hn1 : normName (effectiveOpts o0) k1 = n)
    (hn2 : normName (effectiveOpts o0) k2 = n) :
    (processEntries app rg o0 entries pa ea sOk eOk).exitCode = 1 ∧
    (processEntries app rg o0 entries pa ea sOk eOk).secretsScriptOut = none ∧
    (processEntries app rg o0 entries pa ea sOk eOk).secretsJsonOut = none ∧
    (processEntries app rg o0 entries pa ea sOk eOk).envVarsScriptOut = none ∧
    (processEntries app rg o0 entries pa ea sOk eOk).envVarsJsonOut = none ∧
    (processEntries app rg o0 entries pa ea sOk eOk).prefsUpdated = false ∧
    (processEntries app rg o0 entries pa ea sOk eOk).collisionReport =
      findNameCollisions (nameMapOf (effectiveOpts o0) entries) ∧
    ∀ m ks, (m, ks) ∈ nameMapOf (effectiveOpts o0) entries → ks.length > 1 →
      (m ++ ": " ++ joinWith ", " ks) ∈
        (processEntries app rg o0 entries pa ea sOk eOk).collisionReport := by
  obtain ⟨g, hgmem, hglen, hgrep⟩ :=
    collision_report_of_clash (effectiveOpts o0) entries h1 h2 hne hn1 hn2
  have hcol : findNameCollisions (loopOut (effectiveOpts o0) entries).nameToKeys ≠ [] := by
    intro hnil
    have hrep' := hgrep
    simp only [nameMapOf] at hrep'
    rw [hnil] at hrep'
    exact absurd hrep' (List.not_mem_nil _)
  rw [processEntries_collision_case app rg o0 entries pa ea sOk eOk hcol]
  refine ⟨rfl, rfl, rfl, rfl, rfl, rfl, rfl, ?_⟩
  intro m ks hm hk
  exact mem_findNameCollisions hm hk

/-- C1 witness: the spec collision example FOO_BAR=1 and FOO-BAR=2 under
kebab-lower, applied through the theorem. -/
theorem C1_collision_fatal_abort_witness :
    (processEntries "server" "rg" defaultOptions
      [("FOO_BAR", "1"), ("FOO-BAR", "2")] false false true true).exitCode = 1 ∧
    (processEntries "server" "rg" defaultOptions
      [("FOO_BAR", "1"), ("FOO-BAR", "2")] false false true true).secretsJsonOut = none ∧
    (processEntries "server" "rg" defaultOptions
      [("FOO_BAR", "1"), ("FOO-BAR", "2")] false false true true).envVarsJsonOut = none ∧
    ("foo-bar" ++ ": " ++ joinWith ", " ["FOO_BAR", "FOO-BAR"]) ∈
      (processEntries "server" "rg" defaultOptions
        [("FOO_BAR", "1"), ("FOO-BAR", "2")] false false true true).collisionReport := by
  have h := C1_collision_fatal_abort "server" "rg" defaultOptions
    [("FOO_BAR", "1"), ("FOO-BAR", "2")] false false true true
    "foo-bar" "FOO_BAR" "FOO-BAR"
    (by decide) (by decide) (by decide) (by decide) (by decide)
  exact ⟨h.1, h.2.2.1, h.2.2.2.2.1,
    h.2.2.2.2.2.2.2 "foo-bar" ["FOO_BAR", "FOO-BAR"] (by decide) (by decide)⟩

/-- C7: for every parsed entry with a non-empty value, the prefix filters
run on the original untransformed key: an exclude-prefix match skips it
as excluded-prefix regardless of the include list; otherwise a non-empty
include list none of whose prefixes match skips it as
not-included-prefix; otherwise the key is processed. -/
theorem C7_prefix_filtering (app rg : String) (o0 : CliOptions)
    (entries : List (String × String)) (pa ea sOk eOk : Bool) (k v : String)
    (hmem : (k, v) ∈ entries) (hv : ¬ v.length = 0) :
    ((∃ p ∈ o0.excludePrefix, strStartsWith k p = true) →
      (k, SkipReason.excludedPrefix) ∈
        (processEntries app rg o0 entries pa ea sOk eOk).skipped) ∧
    ((¬ ∃ p ∈ o0.excludePrefix, strStartsWith k p = true) →
      o0.includePrefix ≠ [] →
      (¬ ∃ p ∈ o0.includePrefix, strStartsWith k p = true) →
      (k, SkipReason.notIncludedPrefix) ∈
        (processEntries app rg o0 entries pa ea sOk eOk).skipped) ∧
    ((¬ ∃ p ∈ o0.excludePrefix, strStartsWith k p = true) →
      (o0.includePrefix = [] ∨ ∃ p ∈ o0.includePrefix, strStartsWith k p = true) →
      k ∈ (processEntries app rg o0 entries pa ea sOk eOk).processedKeys) := by
  obtain ⟨hkeys, hskip⟩ := processEntries_keys_skipped app rg o0 entries pa ea sOk eOk
  rw [hkeys, hskip, processedKeys_loopOut, skipped_loopOut]
  refine ⟨?_, ?_, ?_⟩
  · intro hex
    have hany : (effectiveOpts o0).excludePrefix.any (fun p => strStartsWith k p) = true := by
      rw [effectiveOpts_excludePrefix]
      exact List.any_eq_true.mpr hex
    refine List.mem_filterMap.mpr ⟨(k, v), hmem, ?_⟩
    simp [skipOf, hv, shouldIncludeKey, hany]
  · intro hexn hincne hincn
    have hanyx : (effectiveOpts o0).excludePrefix.any (fun p => strStartsWith k p) = false := by
      rw [effectiveOpts_excludePrefix]
      rw [Bool.eq_false_iff]
      intro hc
      exact hexn (List.any_eq_true.mp hc)
    have hanyi : (effectiveOpts o0).includePrefix.any (fun p => strStartsWith k p) = false := by
      rw [effectiveOpts_includePrefix]
      rw [Bool.eq_false_iff]
      intro hc
      exact hincn (List.any_eq_true.mp hc)
    refine List.mem_filterMap.mpr ⟨(k, v), hmem, ?_⟩
    have hinc' : (effectiveOpts o0).includePrefix ≠ [] := by
      rw [effectiveOpts_includePrefix]
      exact hincne
    simp [skipOf, hv, shouldIncludeKey, hanyx, hanyi, hinc']
  · intro hexn hinc
    have hanyx : (effectiveOpts o0).excludePrefix.any (fun p => strStartsWith k p) = false := by
      rw [effectiveOpts_excludePrefix]
      rw [Bool.eq_false_iff]
      intro hc
      exact hexn (List.any_eq_true.mp hc)
    have hnone : shouldIncludeKey k (effectiveOpts o0).includePrefix
        (effectiveOpts o0).excludePrefix = none := by
      rcases hinc with hinc | hinc
      · have : (effectiveOpts o0).includePrefix = [] := by
          rw [effectiveOpts_includePrefix]
          exact hinc
        simp [shouldIncludeKey, hanyx, this]
      · have hanyi : (effectiveOpts o0).includePrefix.any (fun p => strStartsWith k p) = true := by
          rw [effectiveOpts_includePrefix]
          exact List.any_eq_true.mpr hinc
        simp [shouldIncludeKey, hanyx, hanyi]
    refine List.mem_map.mpr ⟨(k, v), List.mem_filter.mpr ⟨hmem, ?_⟩, rfl⟩
    simp [survives, hv, hnone]

/-- C7 witness: the theorem applied to a three-entry file with an include
list, hitting all three filter outcomes. -/
theorem C7_prefix_filtering_witness :
    ("TF_VAR_X", SkipReason.excludedPrefix) ∈
      (processEntries "a" "g" { defaultOptions with includePrefix := ["APP_"] }
        [("TF_VAR_X", "1"), ("OTHER", "2"), ("APP_A", "3")]
        false false true true).skipped ∧
    ("OTHER", SkipReason.notIncludedPrefix) ∈
      (processEntries "a" "g" { defaultOptions with includePrefix := ["APP_"] }
        [("TF_VAR_X", "1"), ("OTHER", "2"), ("APP_A", "3")]
        false false true true).skipped ∧
    "APP_A" ∈ (processEntries "a" "g" { defaultOptions with includePrefix := ["APP_"] }
        [("TF_VAR_X", "1"), ("OTHER", "2"), ("APP_A", "3")]
        false false true true).processedKeys := by
  refine ⟨?_, ?_, ?_⟩
  · exact (C7_prefix_filtering "a" "g" { defaultOptions with includePrefix := ["APP_"] }
      [("TF_VAR_X", "1"), ("OTHER", "2"), ("APP_A", "3")] false false true true
      "TF_VAR_X" "1" (by decide) (by decide)).1 (by decide)
  · exact (C7_prefix_filtering "a" "g" { defaultOptions with includePrefix := ["APP_"] }
      [("TF_VAR_X", "1"), ("OTHER", "2"), ("APP_A", "3")] false false true true
      "OTHER" "2" (by decide) (by decide)).2.1 (by decide) (by decide) (by decide)
  · exact (C7_prefix_filtering "a" "g" { defaultOptions with includePrefix := ["APP_"] }
      [("TF_VAR_X", "1"), ("OTHER", "2"), ("APP_A", "3")] false false true true
      "APP_A" "3" (by decide) (by decide)).2.2 (by decide) (by decide)

/-- C10 amended: when zero entries survive filtering and the run is not
stopped earlier (the two only-flags are not combined and, when the
plaintext confirmation applies, it is answered yes), the run still writes
the selected artifact files - empty JSON objects and scripts whose
command has no key=value arguments - still updates the preferences
store, reports that nothing was processed, exits zero and never offers
execution. -/
theorem C10_nothing_processed (app rg : String) (o0 : CliOptions)
    (entries : List (String × String)) (pa ea sOk eOk : Bool)
    (hsurv : survivorsOf (effectiveOpts o0) entries = [])
    (hboth : ¬((effectiveOpts o0).secretsOnly = true ∧ (effectiveOpts o0).envOnly = true))
    (hpa : ((effectiveOpts o0).envOnly = false ∧
      (effectiveOpts o0).envMode = EnvMode.plain ∧
      (effectiveOpts o0).yes = false) → pa = true) :
    (processEntries app rg o0 entries pa ea sOk eOk).exitCode = 0 ∧
    (processEntries app rg o0 entries pa ea sOk eOk).noKeysMessage = true ∧
    (processEntries app rg o0 entries pa ea sOk eOk).prefsUpdated = true ∧
    (processEntries app rg o0 entries pa ea sOk eOk).execPromptShown = false ∧
    (processEntries app rg o0 entries pa ea sOk eOk).attemptedScripts = [] ∧
    (processEntries app rg o0 entries pa ea sOk eOk).secretsJsonOut =
      (if (effectiveOpts o0).envOnly = true then none else some []) ∧
    (processEntries app rg o0 entries pa ea sOk eOk).secretsScriptOut =
      (if (effectiveOpts o0).envOnly = true then none
       else some (secretsCommandText app rg [])) ∧
    (processEntries app rg o0 entries pa ea sOk eOk).envVarsJsonOut =
      (if (effectiveOpts o0).secretsOnly = true then none else some []) ∧
    (processEntries app rg o0 entries pa ea sOk eOk).envVarsScriptOut =
      (if (effectiveOpts o0).secretsOnly = true then none
       else some (envVarsCommandText app rg [])) := by
  have hkeys0 : survivorKeysOf (effectiveOpts o0) entries = [] := by
    simp [survivorKeysOf, hsurv]
  have hnm : nameMapOf (effectiveOpts o0) entries = [] :=
    nameMap_nil _ _ hsurv
  have hcol : findNameCollisions (loopOut (effectiveOpts o0) entries).nameToKeys = [] := by
    simp only [nameMapOf] at hnm
    rw [hnm]
    rfl
  have hpass : ¬(((effectiveOpts o0).envOnly = false ∧
      (effectiveOpts o0).envMode = EnvMode.plain ∧
      (effectiveOpts o0).yes = false) ∧ pa = false) := by
    rintro ⟨hc, hf⟩
    rw [hpa hc] at hf
    exact absurd hf (by simp)
  rw [processEntries_written_case app rg o0 entries pa ea sOk eOk hcol hboth hpass]
  have hsecrets : (loopOut (effectiveOpts o0) entries).secrets = [] := by
    by_cases henv : (effectiveOpts o0).envOnly = true
    · rcases hboth' : (effectiveOpts o0).envOnly with _ | _
      · rw [hboth'] at henv
        exact absurd henv (by simp)
      · -- envOnly = true: prove via the general lemma is unavailable; compute
        -- directly from the absence of survivors.
        have : ∀ es, survivorsOf (effectiveOpts o0) es = [] →
            (loopOut (effectiveOpts o0) es).secrets = [] := by
          intro es
          induction es using List.reverseRecOn with
          | nil => intro _; rfl
          | append_singleton es' e ih =>
              intro hs
              rw [survivorsOf_append] at hs
              by_cases hsv : survives (effectiveOpts o0) e
              · rw [if_pos hsv] at hs
                exact absurd hs (by simp)
              · rw [if_neg hsv, List.append_nil] at hs
                rw [loopOut_append,
                  step_not_surviving _ _ e (by simp [hsv])]
                exact ih hs
        exact this entries hsurv
    · have henv' : (effectiveOpts o0).envOnly = false := by
        rcases hb : (effectiveOpts o0).envOnly with _ | _
        · rfl
        · exact absurd hb henv
      rw [secrets_loopOut (effectiveOpts o0) henv' entries
        (by rw [hkeys0]; exact List.nodup_nil)
        (fun k1 h1 => absurd (hkeys0 ▸ h1) (List.not_mem_nil k1))]
      rw [hsurv]
      rfl
  have henvvars : (loopOut (effectiveOpts o0) entries).envVars = [] := by
    by_cases hsec : (effectiveOpts o0).secretsOnly = true
    · have : ∀ es, survivorsOf (effectiveOpts o0) es = [] →
          (loopOut (effectiveOpts o0) es).envVars = [] := by
        intro es
        induction es using List.reverseRecOn with
        | nil => intro _; rfl
        | append_singleton es' e ih =>
            intro hs
            rw [survivorsOf_append] at hs
            by_cases hsv : survives (effectiveOpts o0) e
            · rw [if_pos hsv] at hs
              exact absurd hs (by simp)
            · rw [if_neg hsv, List.append_nil] at hs
              rw [loopOut_append,
                step_not_surviving _ _ e (by simp [hsv])]
              exact ih hs
      exact this entries hsurv
    · have hsec' : (effectiveOpts o0).secretsOnly = false := by
        rcases hb : (effectiveOpts o0).secretsOnly with _ | _
        · rfl
        · exact absurd hb hsec
      rw [envVars_loopOut (effectiveOpts o0) hsec' entries
        (by rw [hkeys0]; exact List.nodup_nil)]
      rw [hsurv]
      rfl
  have hlen : (writtenOf app rg (effectiveOpts o0) (loopOut (effectiveOpts o0) entries)
      (base2Of o0 (effectiveOpts o0) (loopOut (effectiveOpts o0) entries))).processedKeys.length = 0 := by
    show (loopOut (effectiveOpts o0) entries).processedKeys.length = 0
    rw [processedKeys_loopOut, hkeys0]
    rfl
  rw [afterWrites_nokeys _ _ _ _ _ hlen]
  refine ⟨rfl, rfl, rfl, rfl, rfl, ?_, ?_, ?_, ?_⟩
  · show (if (effectiveOpts o0).envOnly = true then none
        else some (loopOut (effectiveOpts o0) entries).secrets) = _
    rw [hsecrets]
  · show (if (effectiveOpts o0).envOnly = true then none
        else some (secretsCommandText app rg (loopOut (effectiveOpts o0) entries).secrets)) = _
    rw [hsecrets]
  · show (if (effectiveOpts o0).secretsOnly = true then none
        else some (loopOut (effectiveOpts o0) entries).envVars) = _
    rw [henvvars]
  · show (if (effectiveOpts o0).secretsOnly = true then none
        else some (envVarsCommandText app rg (loopOut (effectiveOpts o0) entries).envVars)) = _
    rw [henvvars]

/-- C10 witness: the amended theorem applied to an empty entry list with
all-default flags: both empty JSON objects and both empty-argument
scripts are written, the preferences update happens, the
nothing-processed message is shown, and the run exits zero without the
execute prompt. -/
theorem C10_nothing_processed_witness :
    (processEntries "app" "rg" defaultOptions [] false false true true).exitCode = 0 ∧
    (processEntries "app" "rg" defaultOptions [] false false true true).noKeysMessage = true ∧
    (processEntries "app" "rg" defaultOptions [] false false true true).prefsUpdated = true ∧
    (processEntries "app" "rg" defaultOptions [] false false true true).execPromptShown = false ∧
    (processEntries "app" "rg" defaultOptions [] false false true true).secretsJsonOut = some [] ∧
    (processEntries "app" "rg" defaultOptions [] false false true true).envVarsJsonOut = some [] := by
  have h := C10_nothing_processed "app" "rg" defaultOptions [] false false true true
    (by decide) (by decide) (by decide)
  refine ⟨h.1, h.2.1, h.2.2.1, h.2.2.2.1, ?_, ?_⟩
  · rw [h.2.2.2.2.2.1]
    decide
  · rw [h.2.2.2.2.2.2.2.1]
    decide

/-- C4: a run with --env-only and env mode secretref is coerced to plain
mode with the warning emitted, and (when it reaches the writing stage)
its env-vars JSON object is exactly the surviving original entries - each
original key mapped to its literal cleaned value, every pair taken
verbatim from the parsed input, never a constructed secretref reference. -/
theorem C4_env_only_coerced_to_plain (app rg : String) (o : CliOptions)
    (entries : List (String × String)) (pa ea sOk eOk : Bool)
    (hEnv : o.envOnly = true) (hMode : o.envMode = EnvMode.secretref)
    (hSec : o.secretsOnly = false)
    (hnd : (entries.map Prod.fst).Nodup)
    (hcol : findNameCollisions (nameMapOf (effectiveOpts o) entries) = []) :
    (effectiveOpts o).envMode = EnvMode.plain ∧
    (processEntries app rg o entries pa ea sOk eOk).coercionWarned = true ∧
    (processEntries app rg o entries pa ea sOk eOk).envVarsJsonOut =
      some (survivorsOf (effectiveOpts o) entries) ∧
    (∀ p ∈ survivorsOf (effectiveOpts o) entries, p ∈ entries) := by
  have hEff : effectiveOpts o = { o with envMode := EnvMode.plain } :=
    effectiveOpts_coerce hMode hEnv
  have hOEmode : (effectiveOpts o).envMode = EnvMode.plain := by
    rw [hEff]
  have hcol' : findNameCollisions (loopOut (effectiveOpts o) entries).nameToKeys = [] := by
    simpa [nameMapOf] using hcol
  have hboth : ¬((effectiveOpts o).secretsOnly = true ∧ (effectiveOpts o).envOnly = true) := by
    rw [effectiveOpts_secretsOnly, hSec]
    simp
  have hpass : ¬(((effectiveOpts o).envOnly = false ∧
      (effectiveOpts o).envMode = EnvMode.plain ∧
      (effectiveOpts o).yes = false) ∧ pa = false) := by
    rw [effectiveOpts_envOnly, hEnv]
    rintro ⟨⟨hc, _⟩, _⟩
    exact absurd hc (by simp)
  have hnd' : (survivorKeysOf (effectiveOpts o) entries).Nodup := by
    have hsub : List.Sublist (survivorKeysOf (effectiveOpts o) entries)
        (entries.map Prod.fst) :=
      List.Sublist.map Prod.fst (List.filter_sublist entries)
    exact List.Nodup.sublist hsub hnd
  rw [processEntries_written_case app rg o entries pa ea sOk eOk hcol' hboth hpass]
  obtain ⟨n, a, b, c, hshape⟩ := afterWrites_shape (effectiveOpts o)
    (writtenOf app rg (effectiveOpts o) (loopOut (effectiveOpts o) entries)
      (base2Of o (effectiveOpts o) (loopOut (effectiveOpts o) entries)))
    ea sOk eOk
  rw [hshape]
  refine ⟨hOEmode, ?_, ?_, fun p hp => List.mem_of_mem_filter hp⟩
  · show decide (o.envMode = EnvMode.secretref ∧ o.envOnly = true) = true
    rw [hMode, hEnv]
    simp
  · show (if (effectiveOpts o).secretsOnly = true then none
        else some (loopOut (effectiveOpts o) entries).envVars) = _
    rw [effectiveOpts_secretsOnly, hSec]
    rw [if_neg (by simp)]
    rw [envVars_loopOut (effectiveOpts o) (by rw [effectiveOpts_secretsOnly, hSec]) entries hnd']
    have hfun : ∀ kv : String × String,
        envValOf (effectiveOpts o) kv = kv.2 := by
      intro kv
      simp [envValOf, hOEmode]
    simp only [hfun]
    rw [show (fun kv : String × String => (kv.1, kv.2)) = id from funext fun kv => rfl,
      List.map_id]

/-- C4 witness: the theorem applied to --env-only with default env mode on
a single-entry file: the mode is coerced to plain, the warning shows, and
the env-vars object holds the literal pair. -/
theorem C4_env_only_coerced_to_plain_witness :
    (effectiveOpts { defaultOptions with envOnly := true }).envMode = EnvMode.plain ∧
    (processEntries "app" "rg" { defaultOptions with envOnly := true }
      [("API_KEY", "v")] false false true true).coercionWarned = true ∧
    (processEntries "app" "rg" { defaultOptions with envOnly := true }
      [("API_KEY", "v")] false false true true).envVarsJsonOut =
        some (survivorsOf (effectiveOpts { defaultOptions with envOnly := true })
          [("API_KEY", "v")]) := by
  have h := C4_env_only_coerced_to_plain "app" "rg"
    { defaultOptions with envOnly := true } [("API_KEY", "v")] false false true true
    (by decide) (by decide) (by decide) (by decide) (by decide)
  exact ⟨h.1, h.2.1, h.2.2.1⟩

/-- C5: in a collision-free run generating both groups in secretref mode,
the secrets object is the surviving entries renamed to target names, the
env-vars object maps each surviving original key to the secretref string
of its target name, and every secrets pair corresponds to exactly one
surviving original key whose env-vars value is exactly that reference. -/
theorem C5_secretref_roundtrip (app rg : String) (o : CliOptions)
    (entries : List (String × String)) (pa ea sOk eOk : Bool)
    (hEnv : o.envOnly = false) (hSec : o.secretsOnly = false)
    (hMode : o.envMode = EnvMode.secretref)
    (hnd : (entries.map Prod.fst).Nodup)
    (hcol : findNameCollisions (nameMapOf o entries) = []) :
    (processEntries app rg o entries pa ea sOk eOk).secretsJsonOut =
      some ((survivorsOf o entries).map (fun kv => (normName o kv.1, kv.2))) ∧
    (processEntries app rg o entries pa ea sOk eOk).envVarsJsonOut =
      some ((survivorsOf o entries).map
        (fun kv => (kv.1, "secretref:" ++ normName o kv.1))) ∧
    ∀ nm v, (nm, v) ∈ (survivorsOf o entries).map (fun kv => (normName o kv.1, kv.2)) →
      ∃ k, (k, v) ∈ survivorsOf o entries ∧ normName o k = nm ∧
        (k, "secretref:" ++ nm) ∈ (survivorsOf o entries).map
          (fun kv => (kv.1, "secretref:" ++ normName o kv.1)) ∧
        ∀ k2 ∈ survivorKeysOf o entries, normName o k2 = nm → k2 = k := by
  have hEff : effectiveOpts o = o := effectiveOpts_eq_self hEnv
  have hcol' : findNameCollisions (loopOut (effectiveOpts o) entries).nameToKeys = [] := by
    rw [hEff]
    simpa [nameMapOf] using hcol
  have hboth : ¬((effectiveOpts o).secretsOnly = true ∧ (effectiveOpts o).envOnly = true) := by
    rw [hEff, hSec]
    simp
  have hpass : ¬(((effectiveOpts o).envOnly = false ∧
      (effectiveOpts o).envMode = EnvMode.plain ∧
      (effectiveOpts o).yes = false) ∧ pa = false) := by
    rw [hEff]
    rintro ⟨⟨_, hm, _⟩, _⟩
    rw [hMode] at hm
    exact absurd hm (by simp)
  have hnd' : (survivorKeysOf o entries).Nodup := by
    have hsub : List.Sublist (survivorKeysOf o entries) (entries.map Prod.fst) :=
      List.Sublist.map Prod.fst (List.filter_sublist entries)
    exact List.Nodup.sublist hsub hnd
  have hinj := collision_free_inj o entries hcol
  rw [processEntries_written_case app rg o entries pa ea sOk eOk hcol' hboth hpass]
  rw [hEff]
  obtain ⟨n, a, b, c, hshape⟩ := afterWrites_shape o
    (writtenOf app rg o (loopOut o entries) (base2Of o o (loopOut o entries)))
    ea sOk eOk
  rw [hshape]
  refine ⟨?_, ?_, ?_⟩
  · show (if o.envOnly = true then none else some (loopOut o entries).secrets) = _
    rw [hEnv]
    rw [if_neg (by simp)]
    rw [secrets_loopOut o hEnv entries hnd' hinj]
  · show (if o.secretsOnly = true then none else some (loopOut o entries).envVars) = _
    rw [hSec]
    rw [if_neg (by simp)]
    rw [envVars_loopOut o hSec entries hnd']
    have hfun : ∀ kv : String × String,
        envValOf o kv = "secretref:" ++ normName o kv.1 := by
      intro kv
      simp [envValOf, hMode]
    simp only [hfun]
  · intro nm v hmem
    rcases List.mem_map.mp hmem with ⟨kv, hkv, hpair⟩
    have hnm : normName o kv.1 = nm := (Prod.mk.injEq _ _ _ _).mp hpair |>.1
    have hv : kv.2 = v := (Prod.mk.injEq _ _ _ _).mp hpair |>.2
    refine ⟨kv.1, ?_, hnm, ?_, ?_⟩
    · rw [← hv]
      exact hkv
    · exact List.mem_map.mpr ⟨kv, hkv, by rw [hnm]⟩
    · intro k2 hk2 hk2n
      have hk1 : kv.1 ∈ survivorKeysOf o entries :=
        List.mem_map.mpr ⟨kv, hkv, rfl⟩
      exact hinj k2 hk2 kv.1 hk1 (by rw [hk2n, hnm])

/-- C5 witness: the theorem applied to the two-entry default example; the
db-host secret pair corresponds to exactly one original key whose
env-vars value is the matching reference. -/
theorem C5_secretref_roundtrip_witness :
    (processEntries "app" "rg" defaultOptions
      [("DB_HOST", "localhost"), ("API_KEY", "secret123")] false false true true).secretsJsonOut =
      some [("db-host", "localhost"), ("api-key", "secret123")] ∧
    (processEntries "app" "rg" defaultOptions
      [("DB_HOST", "localhost"), ("API_KEY", "secret123")] false false true true).envVarsJsonOut =
      some [("DB_HOST", "secretref:db-host"), ("API_KEY", "secretref:api-key")] ∧
    ∃ k, (k, "localhost") ∈ survivorsOf defaultOptions
        [("DB_HOST", "localhost"), ("API_KEY", "secret123")] ∧
      normName defaultOptions k = "db-host" ∧
      (k, "secretref:" ++ "db-host") ∈
        (survivorsOf defaultOptions [("DB_HOST", "localhost"), ("API_KEY", "secret123")]).map
          (fun kv => (kv.1, "secretref:" ++ normName defaultOptions kv.1)) ∧
      ∀ k2 ∈ survivorKeysOf defaultOptions
          [("DB_HOST", "localhost"), ("API_KEY", "secret123")],
        normName defaultOptions k2 = "db-host" → k2 = k := by
  have h := C5_secretref_roundtrip "app" "rg" defaultOptions
    [("DB_HOST", "localhost"), ("API_KEY", "secret123")] false false true true
    (by decide) (by decide) (by decide) (by decide) (by decide)
  refine ⟨?_, ?_, h.2.2 "db-host" "localhost" (by decide)⟩
  · rw [h.1]
    decide
  · rw [h.2.1]
    decide

/-- C2 amended: when execution is chosen, a secrets-script failure is
terminal for the whole run - the run exits 1 with only the secrets script
attempted and the env-vars script never started; the env-vars script can
only fail after the secrets script has already succeeded, in which case
both scripts appear in the attempt list and the run exits 1. -/
theorem C2_execution_short_circuit (app rg : String) (o0 : CliOptions)
    (entries : List (String × String)) (pa ea sOk eOk : Bool)
    (hcol : findNameCollisions (nameMapOf (effectiveOpts o0) entries) = [])
    (hboth : ¬((effectiveOpts o0).secretsOnly = true ∧ (effectiveOpts o0).envOnly = true))
    (hpass : ¬(((effectiveOpts o0).envOnly = false ∧
      (effectiveOpts o0).envMode = EnvMode.plain ∧
      (effectiveOpts o0).yes = false) ∧ pa = false))
    (hsurv : survivorsOf (effectiveOpts o0) entries ≠ [])
    (hex : (effectiveOpts o0).yes = true ∨ ea = true) :
    ((effectiveOpts o0).envOnly = false → sOk = false →
      (processEntries app rg o0 entries pa ea sOk eOk).attemptedScripts =
        ["secrets-command.sh"] ∧
      (processEntries app rg o0 entries pa ea sOk eOk).exitCode = 1) ∧
    ((effectiveOpts o0).envOnly = false → sOk = true →
      (effectiveOpts o0).secretsOnly = false → eOk = false →
      (processEntries app rg o0 entries pa ea sOk eOk).attemptedScripts =
        ["secrets-command.sh", "envvars-command.sh"] ∧
      (processEntries app rg o0 entries pa ea sOk eOk).exitCode = 1) := by
  have hcol' : findNameCollisions (loopOut (effectiveOpts o0) entries).nameToKeys = [] := by
    simpa [nameMapOf] using hcol
  have h0 : ¬ (writtenOf app rg (effectiveOpts o0) (loopOut (effectiveOpts o0) entries)
      (base2Of o0 (effectiveOpts o0) (loopOut (effectiveOpts o0) entries))).processedKeys.length = 0 := by
    show ¬ (loopOut (effectiveOpts o0) entries).processedKeys.length = 0
    rw [processedKeys_loopOut]
    intro hc
    have hz := List.length_eq_zero.mp hc
    exact hsurv (by simpa [survivorKeysOf, List.map_eq_nil_iff] using hz)
  rw [processEntries_written_case app rg o0 entries pa ea sOk eOk hcol' hboth hpass]
  refine ⟨?_, ?_⟩
  · intro henv hs
    have hres := afterWrites_exec_secretsFail (effectiveOpts o0)
      (writtenOf app rg (effectiveOpts o0) (loopOut (effectiveOpts o0) entries)
        (base2Of o0 (effectiveOpts o0) (loopOut (effectiveOpts o0) entries)))
      ea sOk eOk h0 hex henv hs
    exact ⟨hres.2, hres.1⟩
  · intro henv hs hsec he
    have hres := afterWrites_exec_envFail (effectiveOpts o0)
      (writtenOf app rg (effectiveOpts o0) (loopOut (effectiveOpts o0) entries)
        (base2Of o0 (effectiveOpts o0) (loopOut (effectiveOpts o0) entries)))
      ea sOk eOk h0 hex henv hs hsec he
    exact ⟨hres.2, hres.1⟩

/-- C2 witness: the amended theorem applied to a -y run whose secrets
script fails, and to a -y run whose env-vars script fails after the
secrets script succeeded. -/
theorem C2_execution_short_circuit_witness :
    ((processEntries "a" "g" { defaultOptions with yes := true }
      [("A", "1")] true true false true).attemptedScripts = ["secrets-command.sh"] ∧
     (processEntries "a" "g" { defaultOptions with yes := true }
      [("A", "1")] true true false true).exitCode = 1) ∧
    ((processEntries "a" "g" { defaultOptions with yes := true }
      [("A", "1")] true true true false).attemptedScripts =
        ["secrets-command.sh", "envvars-command.sh"] ∧
     (processEntries "a" "g" { defaultOptions with yes := true }
      [("A", "1")] true true true false).exitCode = 1) := by
  refine ⟨?_, ?_⟩
  · exact (C2_execution_short_circuit "a" "g" { defaultOptions with yes := true }
      [("A", "1")] true true false true (by decide) (by decide) (by decide)
      (by decide) (Or.inl (by decide))).1 (by decide) rfl
  · exact (C2_execution_short_circuit "a" "g" { defaultOptions with yes := true }
      [("A", "1")] true true true false (by decide) (by decide) (by decide)
      (by decide) (Or.inl (by decide))).2 (by decide) rfl (by decide) rfl

/-- C9 witness: the invariant theorem applied to a concrete prior state
with duplicates and more than five entries. -/
theorem C9_preferences_invariant_witness :
    (updateLastUsed "app" "rg"
      { lastUsedApp := ["x", "app", "y", "z", "w", "v"]
        lastUsedResourceGroup := ["rg", "rg"] }).lastUsedApp.head? = some "app" ∧
    (updateLastUsed "app" "rg"
      { lastUsedApp := ["x", "app", "y", "z", "w", "v"]
        lastUsedResourceGroup := ["rg", "rg"] }).lastUsedApp.length ≤ 5 ∧
    (updateLastUsed "app" "rg"
      { lastUsedApp := ["x", "app", "y", "z", "w", "v"]
        lastUsedResourceGroup := ["rg", "rg"] }).lastUsedResourceGroup.head? = some "rg" :=
  ⟨(C9_preferences_invariant "app" "rg"
      { lastUsedApp := ["x", "app", "y", "z", "w", "v"]
        lastUsedResourceGroup := ["rg", "rg"] }).1,
   (C9_preferences_invariant "app" "rg"
      { lastUsedApp := ["x", "app", "y", "z", "w", "v"]
        lastUsedResourceGroup := ["rg", "rg"] }).2.2.1,
   (C9_preferences_invariant "app" "rg"
      { lastUsedApp := ["x", "app", "y", "z", "w", "v"]
        lastUsedResourceGroup := ["rg", "rg"] }).2.2.2.2.1⟩

end Envfix
